import Mathlib

/-!
Shallow embedding of the libxenbe control-store watch engine
(`XenStore`), the frontend connection state machine
(`FrontendHandlerBase`) and the ring transport, together with proofs of
the specified properties.  The repository tree contains the class
declarations (`XenStore.hpp`, `FrontendHandlerBase.hpp`); the member
function bodies are not in the tree, so their behaviour is modelled
from the specification, as noted on each definition.
-/

namespace XenBackend

/-- The xenbus connection states, mirroring the `xenbus_state`
enumeration used by `FrontendHandlerBase` (`mBackendState`,
`mFrontendState`). -/
inductive XenbusState where
  | unknown
  | initialising
  | initWait
  | initialized
  | connected
  | closing
  | closed
  | reconfiguring
  | reconfigured
  deriving DecidableEq, Repr

/-- A watch callback (`XenStore::WatchCallback`, a `std::function`):
modelled by an identity together with its effect on the engine, namely
the list of paths it clears from inside its own invocation. -/
structure WatchCallback where
  id : Nat
  clears : List String
  deriving DecidableEq, Repr

/-- State of the `XenStore` watch engine: the registration table
`mWatches` (an association list keyed by path) and the
pending-initial-notify queue `mInitNotifyWatches` in registration
order. -/
structure XenStoreState where
  mWatches : List (String × WatchCallback)
  mInitNotifyWatches : List String
  deriving DecidableEq, Repr

/-- A freshly constructed `XenStore`: no watches, nothing pending. -/
def emptyXenStore : XenStoreState := ⟨[], []⟩

/-- Remove every entry for a key from the watch table. -/
def eraseKey : List (String × WatchCallback) → String →
    List (String × WatchCallback)
  | [], _ => []
  | e :: t, p => if e.1 = p then eraseKey t p else e :: eraseKey t p

/-- Remove every occurrence of a path from the pending queue. -/
def erasePath : List String → String → List String
  | [], _ => []
  | q :: t, p => if q = p then erasePath t p else q :: erasePath t p

/-- Look up the current registration for a path in the watch table. -/
def lookupWatch : List (String × WatchCallback) → String →
    Option WatchCallback
  | [], _ => none
  | e :: t, p => if e.1 = p then some e.2 else lookupWatch t p

/-- Modelled from the spec: `XenStore::setWatch` (implementation file
not in the tree) registers or replaces the callback for `path` in
`mWatches`, and when `initNotify` is true enqueues `path` in
`mInitNotifyWatches` so that the callback receives one synthetic
initial notification; at most one registration and at most one pending
synthetic notification exist per path. -/
def setWatch (s : XenStoreState) (path : String) (callback : WatchCallback)
    (initNotify : Bool) : XenStoreState :=
  { mWatches := eraseKey s.mWatches path ++ [(path, callback)]
    mInitNotifyWatches :=
      erasePath s.mInitNotifyWatches path ++
        (if initNotify then [path] else []) }

/-- Modelled from the spec: `XenStore::clearWatch` removes the
registration for `path`, together with any still-pending synthetic
initial notification for it. -/
def clearWatch (s : XenStoreState) (path : String) : XenStoreState :=
  { mWatches := eraseKey s.mWatches path
    mInitNotifyWatches := erasePath s.mInitNotifyWatches path }

/-- Running a watch callback applies its effect on the engine: the
`clearWatch` calls the user callback performs from inside its own
invocation. -/
def runCallback (s : XenStoreState) (cb : WatchCallback) : XenStoreState :=
  cb.clears.foldl clearWatch s

/-- One recorded callback invocation of the dispatch engine. -/
structure Invocation where
  path : String
  callback : WatchCallback
  deriving DecidableEq, Repr

/-- Modelled from the spec: on a real change notification for `path`
the dispatch thread looks up the current registration after acquiring
its lock (`getWatchCallback`) and invokes the callback only when the
registration still exists; an unregistered path produces no
invocation. -/
def dispatchEvent (s : XenStoreState) (path : String) :
    XenStoreState × Option Invocation :=
  match lookupWatch s.mWatches path with
  | none => (s, none)
  | some cb => (runCallback s cb, some ⟨path, cb⟩)

/-- Modelled from the spec: one iteration of the dispatch loop
services the pending initial-notify queue first (`getInitNotifyPath`):
it pops one path and invokes its callback, re-checking that the
registration still exists. -/
def dispatchInitNotify (s : XenStoreState) :
    XenStoreState × Option Invocation :=
  match s.mInitNotifyWatches with
  | [] => (s, none)
  | p :: rest =>
      let s1 : XenStoreState := { s with mInitNotifyWatches := rest }
      match lookupWatch s1.mWatches p with
      | none => (s1, none)
      | some cb => (runCallback s1 cb, some ⟨p, cb⟩)

/-- Fueled draining of the pending initial-notify queue, collecting the
invocations it produces in order. -/
def drainAux : Nat → XenStoreState → XenStoreState × List Invocation
  | 0, s => (s, [])
  | Nat.succ n, s =>
      match s.mInitNotifyWatches with
      | [] => (s, [])
      | _ :: _ =>
          let r1 := dispatchInitNotify s
          let r2 := drainAux n r1.1
          (r2.1, r1.2.toList ++ r2.2)

/-- Drain the whole pending initial-notify queue (callbacks never
enlarge the queue, so the queue length bounds the iterations). -/
def drainInitNotify (s : XenStoreState) : XenStoreState × List Invocation :=
  drainAux s.mInitNotifyWatches.length s

/-- Register a list of watches in order, each with `initNotify`
true. -/
def registerAll (s : XenStoreState)
    (regs : List (String × WatchCallback)) : XenStoreState :=
  regs.foldl (fun t r => setWatch t r.1 r.2 true) s

/-- The operations of the watch interface together with the two kinds
of dispatch-loop step. -/
inductive XsOp where
  | set (path : String) (callback : WatchCallback) (initNotify : Bool)
  | clear (path : String)
  | event (path : String)
  | initStep
  deriving DecidableEq, Repr

/-- Apply one watch-interface operation or dispatch step to the engine
state. -/
def applyXsOp (s : XenStoreState) : XsOp → XenStoreState
  | XsOp.set p cb b => setWatch s p cb b
  | XsOp.clear p => clearWatch s p
  | XsOp.event p => (dispatchEvent s p).1
  | XsOp.initStep => (dispatchInitNotify s).1

/-- Run a sequence of operations from a starting engine state. -/
def runXsOps (s : XenStoreState) (ops : List XsOp) : XenStoreState :=
  ops.foldl applyXsOp s

/-- The externally visible actions of `XenStore` teardown. -/
inductive TeardownAction where
  | signalThreadExit
  | joinThread
  | invokeCallback (inv : Invocation)
  | closeHandle
  deriving DecidableEq, Repr

/-- Whether a teardown action is a watch-callback invocation. -/
def isInvokeCallback : TeardownAction → Bool
  | TeardownAction.invokeCallback _ => true
  | _ => false

/-- Modelled from the spec: `XenStore::clearWatches` (implementation
file not in the tree) empties the watch table and the pending
initial-notify queue. -/
def clearWatches (_s : XenStoreState) : XenStoreState := emptyXenStore

/-- Modelled from the spec: `~XenStore` / `XenStore::release`
(implementation file not in the tree) clears all watches, then signals
the watches thread to finish and joins it
(`waitWatchesThreadFinished`), and only then releases the underlying
`xs_handle`; no watch callback is invoked on this path. -/
def xenStoreRelease (s : XenStoreState) :
    XenStoreState × List TeardownAction :=
  (clearWatches s,
   [TeardownAction.signalThreadExit, TeardownAction.joinThread,
    TeardownAction.closeHandle])

/-- The per-state virtual hooks of `FrontendHandlerBase`. -/
inductive Hook where
  | onStateInitializing
  | onStateInitWait
  | onStateInitialized
  | onStateConnected
  | onStateClosing
  | onStateClosed
  | onStateReconfiguring
  | onStateReconfigured
  deriving DecidableEq, Repr

/-- Modelled from the spec: the state-to-hook table of
`FrontendHandlerBase::onFrontendStateChanged` (implementation file not
in the tree); each hook is selected purely by the newly observed state
value, and `Unknown` has no corresponding hook. -/
def hookFor : XenbusState → Option Hook
  | XenbusState.initialising => some Hook.onStateInitializing
  | XenbusState.initWait => some Hook.onStateInitWait
  | XenbusState.initialized => some Hook.onStateInitialized
  | XenbusState.connected => some Hook.onStateConnected
  | XenbusState.closing => some Hook.onStateClosing
  | XenbusState.closed => some Hook.onStateClosed
  | XenbusState.reconfiguring => some Hook.onStateReconfiguring
  | XenbusState.reconfigured => some Hook.onStateReconfigured
  | XenbusState.unknown => none

/-- Observable callback activity of the frontend handler: a state hook
running, or the client-supplied `onBind` running. -/
inductive HookEvent where
  | stateHook (h : Hook)
  | bindHook
  deriving DecidableEq, Repr

/-- Modelled from the spec: the activity of a state hook when it
fires; the `onStateInitialized` hook invokes the client-supplied
`onBind`. -/
def hookEvents : Hook → List HookEvent
  | Hook.onStateInitialized =>
      [HookEvent.stateHook Hook.onStateInitialized, HookEvent.bindHook]
  | h => [HookEvent.stateHook h]

/-- State of a `FrontendHandlerBase`: the constructor-supplied ids,
the two tracked xenbus states, the insertion-ordered ring-buffer set
and the termination flag. -/
structure FrontendHandlerState where
  mDomId : Nat
  mDevId : Nat
  mBackendState : XenbusState
  mFrontendState : XenbusState
  mRingBuffers : List Nat
  mTerminated : Bool
  deriving DecidableEq, Repr

/-- A freshly constructed `FrontendHandlerBase` for domain `domId` and
device `devId`; both tracked states start at `Unknown`. -/
def mkFrontendHandler (domId devId : Nat) : FrontendHandlerState :=
  { mDomId := domId
    mDevId := devId
    mBackendState := XenbusState.unknown
    mFrontendState := XenbusState.unknown
    mRingBuffers := []
    mTerminated := false }

/-- `FrontendHandlerBase::getDomId`. -/
def getDomId (s : FrontendHandlerState) : Nat := s.mDomId

/-- `FrontendHandlerBase::getDevId`. -/
def getDevId (s : FrontendHandlerState) : Nat := s.mDevId

/-- `FrontendHandlerBase::getBackendState`. -/
def getBackendState (s : FrontendHandlerState) : XenbusState :=
  s.mBackendState

/-- Modelled from the spec: `FrontendHandlerBase::setBackendState`
(implementation file not in the tree) records, and publishes to the
store, the backend state. -/
def setBackendState (s : FrontendHandlerState) (st : XenbusState) :
    FrontendHandlerState :=
  { s with mBackendState := st }

/-- Modelled from the spec: `FrontendHandlerBase::addRingBuffer`
(implementation file not in the tree) appends to the insertion-ordered
ring-buffer set. -/
def addRingBuffer (s : FrontendHandlerState) (ringBuffer : Nat) :
    FrontendHandlerState :=
  { s with mRingBuffers := s.mRingBuffers ++ [ringBuffer] }

/-- Modelled from the spec: `FrontendHandlerBase::isTerminated`
(implementation file not in the tree) reports whether the connection
can no longer make progress: the termination flag is set or the
backend has reached `Closed`. -/
def isTerminated (s : FrontendHandlerState) : Bool :=
  s.mTerminated || (s.mBackendState == XenbusState.closed)

/-- Modelled from the spec: `FrontendHandlerBase::onError`
(implementation file not in the tree) converts a caught hook exception
into a transition of the backend state into `Closing`; the connection
is terminated from then on. -/
def onError (s : FrontendHandlerState) : FrontendHandlerState :=
  { s with mBackendState := XenbusState.closing, mTerminated := true }

/-- A client hook implementation: each per-state hook either returns
normally or throws an exception carrying a message. -/
def HookImpl : Type := Hook → Except String Unit

/-- The default hook implementations, which all return normally. -/
def okHookImpl : HookImpl := fun _ => Except.ok ()

/-- A hook implementation whose every hook throws. -/
def throwingHookImpl : HookImpl := fun _ => Except.error "hook failure"

/-- Modelled from the spec:
`FrontendHandlerBase::frontendStateChanged` /
`onFrontendStateChanged` (implementation file not in the tree).  The
watch callback re-reads the frontend state; only if the value differs
from the previously recorded `mFrontendState` does it record the new
value and dispatch the hook selected by the new state value; any
exception escaping the hook is caught here and handed to `onError`, so
the function returns normally in every case and nothing propagates
into the shared dispatch thread. -/
def frontendStateChanged (impl : HookImpl) (s : FrontendHandlerState)
    (state : XenbusState) : FrontendHandlerState × List HookEvent :=
  if state = s.mFrontendState then (s, [])
  else
    let s1 := { s with mFrontendState := state }
    match hookFor state with
    | none => (s1, [])
    | some h =>
        match impl h with
        | Except.ok _ => (s1, hookEvents h)
        | Except.error _ => (onError s1, hookEvents h)

/-- Process a sequence of observed frontend state values, collecting
the hook activity in order. -/
def observeSeq (impl : HookImpl) (s : FrontendHandlerState) :
    List XenbusState → FrontendHandlerState × List HookEvent
  | [] => (s, [])
  | v :: vs =>
      let r1 := frontendStateChanged impl s v
      let r2 := observeSeq impl r1.1 vs
      (r2.1, r1.2 ++ r2.2)

/-- The number of positions of a state sequence at which the observed
value equals `target` while differing from the value recorded just
before it (`prev` threads the recorded value). -/
def entriesInto (target : XenbusState) (prev : XenbusState) :
    List XenbusState → Nat
  | [] => 0
  | v :: vs =>
      (if v = target ∧ v ≠ prev then 1 else 0) + entriesInto target v vs

/-- The operations that act on a `FrontendHandlerBase` after
construction: watch-callback dispatch (with the client hook
implementation), `addRingBuffer`, `setBackendState`, and the error
path. -/
inductive FhOp where
  | observe (impl : HookImpl) (state : XenbusState)
  | addRing (ringBuffer : Nat)
  | publish (state : XenbusState)
  | fail

/-- Apply one frontend-handler operation. -/
def applyFhOp (s : FrontendHandlerState) : FhOp → FrontendHandlerState
  | FhOp.observe impl v => (frontendStateChanged impl s v).1
  | FhOp.addRing rb => addRingBuffer s rb
  | FhOp.publish st => setBackendState s st
  | FhOp.fail => onError s

/-- Run a sequence of frontend-handler operations. -/
def runFhOps (s : FrontendHandlerState) (ops : List FhOp) :
    FrontendHandlerState :=
  ops.foldl applyFhOp s

/-- The ring transport state: a fixed capacity, the two
monotonically-increasing indices of one direction, and the slot
contents (`slots.length = capacity`). -/
structure XenRingBuffer where
  capacity : Nat
  prodIdx : Nat
  consIdx : Nat
  slots : List Nat
  deriving DecidableEq, Repr

/-- The explicit ring conditions surfaced to the caller. -/
inductive RingError where
  | ringFull
  | ringEmpty
  deriving DecidableEq, Repr

/-- Ring well-formedness: the consumer never passes the producer, the
producer leads the consumer by at most the capacity, and the slot
storage has exactly `capacity` cells. -/
def ringWF (r : XenRingBuffer) : Prop :=
  r.consIdx ≤ r.prodIdx ∧ r.prodIdx - r.consIdx ≤ r.capacity ∧
    r.slots.length = r.capacity

instance ringWF_decidable (r : XenRingBuffer) : Decidable (ringWF r) := by
  unfold ringWF
  infer_instance

/-- Modelled from the spec: producing a record surfaces an explicit
ring-full condition to the caller when the producer would overrun the
consumer; otherwise the record is written at `prodIdx mod capacity`
and the producer index advances. -/
def ringProduce (r : XenRingBuffer) (x : Nat) :
    Except RingError XenRingBuffer :=
  if r.prodIdx - r.consIdx = r.capacity then
    Except.error RingError.ringFull
  else
    Except.ok { r with slots := r.slots.set (r.prodIdx % r.capacity) x
                       prodIdx := r.prodIdx + 1 }

/-- Modelled from the spec: consuming a record reads the slot at
`consIdx mod capacity` and advances the consumer index; an empty ring
is reported explicitly. -/
def ringConsume (r : XenRingBuffer) :
    Except RingError (Nat × XenRingBuffer) :=
  if r.consIdx = r.prodIdx then
    Except.error RingError.ringEmpty
  else
    Except.ok (r.slots.getD (r.consIdx % r.capacity) 0,
      { r with consIdx := r.consIdx + 1 })

/-- Produce a list of records in order, stopping at the first error. -/
def ringProduceAll (r : XenRingBuffer) :
    List Nat → Except RingError XenRingBuffer
  | [] => Except.ok r
  | x :: xs =>
      match ringProduce r x with
      | Except.error e => Except.error e
      | Except.ok r1 => ringProduceAll r1 xs

/-- A fresh ring of capacity `c`: equal indices, zeroed slots. -/
def emptyRing (c : Nat) : XenRingBuffer :=
  ⟨c, 0, 0, List.replicate c 0⟩

/-- Concrete registrations used to exhibit the initial-notify
behaviour. -/
def c2Regs : List (String × WatchCallback) :=
  [("/local/domain/1/state", ⟨1, []⟩), ("/local/domain/2/state", ⟨2, []⟩)]

/-- A concrete engine state with one registered watch. -/
def c3State : XenStoreState := ⟨[("/a", ⟨7, []⟩)], []⟩

/-- A callback that clears its own path from inside its invocation. -/
def c7Cb : WatchCallback := ⟨3, ["/w"]⟩

/-- A concrete engine state whose single callback self-unregisters. -/
def c7State : XenStoreState := ⟨[("/w", c7Cb)], []⟩

/-- A concrete engine state with five pending initial notifications. -/
def c8State : XenStoreState :=
  ⟨[("/p1", ⟨1, []⟩), ("/p2", ⟨2, []⟩), ("/p3", ⟨3, []⟩),
    ("/p4", ⟨4, []⟩), ("/p5", ⟨5, []⟩)],
   ["/p1", "/p2", "/p3", "/p4", "/p5"]⟩

/-- A capacity-2 ring with both indices at zero. -/
def c9Ring : XenRingBuffer := ⟨2, 0, 0, [0, 0]⟩

/-- A frontend handler whose recorded frontend state is `Connected`. -/
def c1Handler : FrontendHandlerState :=
  { mDomId := 1
    mDevId := 0
    mBackendState := XenbusState.connected
    mFrontendState := XenbusState.connected
    mRingBuffers := []
    mTerminated := false }

theorem eraseKey_cons_self (e : String × WatchCallback)
    (t : List (String × WatchCallback)) (p : String) (he : e.1 = p) :
    eraseKey (e :: t) p = eraseKey t p := by
  simp [eraseKey, he]

theorem eraseKey_cons_ne (e : String × WatchCallback)
    (t : List (String × WatchCallback)) (p : String) (he : ¬ e.1 = p) :
    eraseKey (e :: t) p = e :: eraseKey t p := by
  simp [eraseKey, he]

theorem lookupWatch_eraseKey_append (w : List (String × WatchCallback))
    (p : String) (cb : WatchCallback) (q : String) :
    lookupWatch (eraseKey w p ++ [(p, cb)]) q =
      if q = p then some cb else lookupWatch w q := by
  induction w with
  | nil =>
      simp only [eraseKey, List.nil_append, lookupWatch]
      by_cases h : q = p
      · simp [h]
      · have h2 : ¬ p = q := fun hh => h hh.symm
        simp [h, h2]
  | cons e t ih =>
      by_cases he : e.1 = p
      · rw [eraseKey_cons_self e t p he, ih]
        by_cases hq : q = p
        · simp [hq]
        · have hne : ¬ e.1 = q := fun hh => hq (hh.symm.trans he)
          simp [lookupWatch, hq, hne]
      · rw [eraseKey_cons_ne e t p he]
        by_cases heq : e.1 = q
        · have hq : ¬ q = p := fun hh => he (heq.trans hh)
          simp [lookupWatch, heq, hq]
        · simp [lookupWatch, heq, ih]

theorem lookupWatch_setWatch (s : XenStoreState) (p : String)
    (cb : WatchCallback) (b : Bool) (q : String) :
    lookupWatch (setWatch s p cb b).mWatches q =
      if q = p then some cb else lookupWatch s.mWatches q := by
  simp [setWatch, lookupWatch_eraseKey_append]

theorem lookupWatch_eraseKey (w : List (String × WatchCallback))
    (p q : String) :
    lookupWatch (eraseKey w p) q =
      if q = p then none else lookupWatch w q := by
  induction w with
  | nil => simp [eraseKey, lookupWatch]
  | cons e t ih =>
      by_cases he : e.1 = p
      · rw [eraseKey_cons_self e t p he, ih]
        by_cases hq : q = p
        · simp [hq]
        · have hne : ¬ e.1 = q := fun hh => hq (hh.symm.trans he)
          simp [lookupWatch, hq, hne]
      · rw [eraseKey_cons_ne e t p he]
        by_cases heq : e.1 = q
        · have hq : ¬ q = p := fun hh => he (heq.trans hh)
          simp [lookupWatch, heq, hq]
        · simp [lookupWatch, heq, ih]

theorem lookupWatch_clearWatch (s : XenStoreState) (p q : String) :
    lookupWatch (clearWatch s p).mWatches q =
      if q = p then none else lookupWatch s.mWatches q := by
  simp [clearWatch, lookupWatch_eraseKey]

theorem erasePath_cons_self (a : String) (t : List String) (p : String)
    (ha : a = p) : erasePath (a :: t) p = erasePath t p := by
  simp [erasePath, ha]

theorem erasePath_cons_ne (a : String) (t : List String) (p : String)
    (ha : ¬ a = p) : erasePath (a :: t) p = a :: erasePath t p := by
  simp [erasePath, ha]

theorem mem_erasePath (l : List String) (p q : String) :
    q ∈ erasePath l p ↔ q ∈ l ∧ q ≠ p := by
  induction l with
  | nil => simp [erasePath]
  | cons a t ih =>
      by_cases ha : a = p
      · rw [erasePath_cons_self a t p ha, ih]
        constructor
        · rintro ⟨hm, hne⟩
          exact ⟨List.mem_cons_of_mem _ hm, hne⟩
        · rintro ⟨hm, hne⟩
          rcases List.mem_cons.mp hm with h1 | h1
          · exact absurd (h1.trans ha) hne
          · exact ⟨h1, hne⟩
      · rw [erasePath_cons_ne a t p ha]
        constructor
        · intro hm
          rcases List.mem_cons.mp hm with h1 | h1
          · exact ⟨List.mem_cons.mpr (Or.inl h1),
              fun hqp => ha (h1 ▸ hqp)⟩
          · rcases ih.mp h1 with ⟨hm2, hne⟩
            exact ⟨List.mem_cons_of_mem _ hm2, hne⟩
        · rintro ⟨hm, hne⟩
          rcases List.mem_cons.mp hm with h1 | h1
          · exact List.mem_cons.mpr (Or.inl h1)
          · exact List.mem_cons_of_mem _ (ih.mpr ⟨h1, hne⟩)

theorem clearWatch_preserves_none (s : XenStoreState) (p q : String)
    (h : lookupWatch s.mWatches q = none) :
    lookupWatch (clearWatch s p).mWatches q = none := by
  rw [lookupWatch_clearWatch]
  by_cases hq : q = p <;> simp [hq, h]

theorem foldl_clearWatch_none (l : List String) (s : XenStoreState)
    (q : String)
    (h : lookupWatch s.mWatches q = none ∨ q ∈ l) :
    lookupWatch (l.foldl clearWatch s).mWatches q = none := by
  induction l generalizing s with
  | nil =>
      rcases h with h | h
      · exact h
      · cases h
  | cons a t ih =>
      simp only [List.foldl_cons]
      rcases h with h | h
      · exact ih _ (Or.inl (clearWatch_preserves_none s a q h))
      · rcases List.mem_cons.mp h with h1 | h1
        · refine ih _ (Or.inl ?_)
          rw [lookupWatch_clearWatch]
          simp [h1]
        · exact ih _ (Or.inr h1)

theorem runCallback_lookup_none (s : XenStoreState) (cb : WatchCallback)
    (q : String) (h : q ∈ cb.clears) :
    lookupWatch (runCallback s cb).mWatches q = none :=
  foldl_clearWatch_none _ _ _ (Or.inr h)

theorem clearWatch_not_mem_queue_self (s : XenStoreState) (p : String) :
    p ∉ (clearWatch s p).mInitNotifyWatches := by
  intro hmem
  exact ((mem_erasePath _ _ _).mp hmem).2 rfl

theorem clearWatch_preserves_not_mem_queue (s : XenStoreState)
    (p q : String) (h : q ∉ s.mInitNotifyWatches) :
    q ∉ (clearWatch s p).mInitNotifyWatches := by
  intro hmem
  exact h ((mem_erasePath _ _ _).mp hmem).1

theorem foldl_clearWatch_not_mem_queue (l : List String)
    (s : XenStoreState) (q : String)
    (h : q ∉ s.mInitNotifyWatches ∨ q ∈ l) :
    q ∉ (l.foldl clearWatch s).mInitNotifyWatches := by
  induction l generalizing s with
  | nil =>
      rcases h with h | h
      · exact h
      · cases h
  | cons a t ih =>
      simp only [List.foldl_cons]
      rcases h with h | h
      · exact ih _ (Or.inl (clearWatch_preserves_not_mem_queue s a q h))
      · rcases List.mem_cons.mp h with h1 | h1
        · exact ih _ (Or.inl (h1 ▸ clearWatch_not_mem_queue_self s a))
        · exact ih _ (Or.inr h1)

theorem runCallback_not_mem_queue (s : XenStoreState) (cb : WatchCallback)
    (q : String) (h : q ∈ cb.clears) :
    q ∉ (runCallback s cb).mInitNotifyWatches :=
  foldl_clearWatch_not_mem_queue _ _ _ (Or.inr h)

theorem runCallback_pure (s : XenStoreState) (cb : WatchCallback)
    (h : cb.clears = []) : runCallback s cb = s := by
  simp [runCallback, h]

theorem erasePath_of_not_mem (l : List String) (p : String) (h : p ∉ l) :
    erasePath l p = l := by
  induction l with
  | nil => rfl
  | cons a t ih =>
      have ha : ¬ a = p := fun hh => h (List.mem_cons.mpr (Or.inl hh.symm))
      rw [erasePath_cons_ne a t p ha,
        ih (fun hm => h (List.mem_cons_of_mem _ hm))]

theorem registerAll_cons (s : XenStoreState) (r : String × WatchCallback)
    (t : List (String × WatchCallback)) :
    registerAll s (r :: t) = registerAll (setWatch s r.1 r.2 true) t := by
  simp [registerAll]

theorem registerAll_queue (regs : List (String × WatchCallback))
    (s : XenStoreState)
    (hdisj : ∀ r ∈ regs, r.1 ∉ s.mInitNotifyWatches)
    (hnodup : (regs.map Prod.fst).Nodup) :
    (registerAll s regs).mInitNotifyWatches =
      s.mInitNotifyWatches ++ regs.map Prod.fst := by
  induction regs generalizing s with
  | nil => simp [registerAll]
  | cons r t ih =>
      have hstep :
          (setWatch s r.1 r.2 true).mInitNotifyWatches =
            s.mInitNotifyWatches ++ [r.1] := by
        simp [setWatch,
          erasePath_of_not_mem _ _ (hdisj r (List.mem_cons.mpr (Or.inl rfl)))]
      have hnodup2 : (t.map Prod.fst).Nodup := by
        simpa using (List.nodup_cons.mp (by simpa using hnodup)).2
      have hhead : r.1 ∉ t.map Prod.fst :=
        (List.nodup_cons.mp (by simpa using hnodup)).1
      have hdisj2 : ∀ x ∈ t, x.1 ∉ (setWatch s r.1 r.2 true).mInitNotifyWatches := by
        intro x hx
        rw [hstep]
        intro hmem
        rcases List.mem_append.mp hmem with h1 | h1
        · exact hdisj x (List.mem_cons_of_mem _ hx) h1
        · have : x.1 = r.1 := by simpa using h1
          exact hhead (this ▸ List.mem_map_of_mem Prod.fst hx)
      rw [registerAll_cons, ih (setWatch s r.1 r.2 true) hdisj2 hnodup2,
        hstep]
      simp

theorem registerAll_lookup_not_mem (regs : List (String × WatchCallback))
    (s : XenStoreState) (q : String) (h : q ∉ regs.map Prod.fst) :
    lookupWatch (registerAll s regs).mWatches q =
      lookupWatch s.mWatches q := by
  induction regs generalizing s with
  | nil => simp [registerAll]
  | cons r t ih =>
      have hq : ¬ q = r.1 := by
        intro hh
        exact h (by simpa using Or.inl hh)
      have ht : q ∉ t.map Prod.fst := fun hm =>
        h (List.mem_cons_of_mem _ hm)
      rw [registerAll_cons, ih _ ht, lookupWatch_setWatch]
      simp [hq]

theorem registerAll_lookup_mem (regs : List (String × WatchCallback))
    (s : XenStoreState) (r : String × WatchCallback) (hr : r ∈ regs)
    (hnodup : (regs.map Prod.fst).Nodup) :
    lookupWatch (registerAll s regs).mWatches r.1 = some r.2 := by
  induction regs generalizing s with
  | nil => cases hr
  | cons a t ih =>
      have hnodup2 : (t.map Prod.fst).Nodup :=
        (List.nodup_cons.mp (by simpa using hnodup)).2
      have hhead : a.1 ∉ t.map Prod.fst :=
        (List.nodup_cons.mp (by simpa using hnodup)).1
      rw [registerAll_cons]
      rcases List.mem_cons.mp hr with h1 | h1
      · subst h1
        rw [registerAll_lookup_not_mem t _ r.1 hhead, lookupWatch_setWatch]
        simp
      · exact ih _ h1 hnodup2

theorem drainAux_pure (n : Nat) (s : XenStoreState)
    (hn : s.mInitNotifyWatches.length ≤ n)
    (hreg : ∀ p ∈ s.mInitNotifyWatches,
      ∃ cb, lookupWatch s.mWatches p = some cb ∧ cb.clears = []) :
    (drainAux n s).2.map Invocation.path = s.mInitNotifyWatches ∧
      (drainAux n s).1.mWatches = s.mWatches := by
  induction n generalizing s with
  | zero =>
      have hq : s.mInitNotifyWatches = [] :=
        List.length_eq_zero.mp (Nat.le_zero.mp hn)
      simp [drainAux, hq]
  | succ n ih =>
      cases hq : s.mInitNotifyWatches with
      | nil => simp [drainAux, hq]
      | cons p rest =>
          obtain ⟨cb, hcb, hclears⟩ :=
            hreg p (by rw [hq]; exact List.mem_cons_self p rest)
          have hlook :
              lookupWatch
                ({ s with mInitNotifyWatches := rest } :
                  XenStoreState).mWatches p = some cb := hcb
          have hstep : dispatchInitNotify s =
              ({ s with mInitNotifyWatches := rest }, some ⟨p, cb⟩) := by
            simp [dispatchInitNotify, hq, hlook,
              runCallback_pure _ _ hclears]
          have hlen :
              ({ s with mInitNotifyWatches := rest } :
                XenStoreState).mInitNotifyWatches.length ≤ n := by
            rw [hq] at hn
            simp only [List.length_cons] at hn
            simpa using Nat.le_of_succ_le_succ hn
          have hreg2 : ∀ q ∈ ({ s with mInitNotifyWatches := rest } :
                XenStoreState).mInitNotifyWatches,
              ∃ cb2, lookupWatch ({ s with mInitNotifyWatches := rest } :
                  XenStoreState).mWatches q = some cb2 ∧ cb2.clears = [] := by
            intro q hqm
            exact hreg q (by rw [hq]; exact List.mem_cons_of_mem p hqm)
          have hrec := ih { s with mInitNotifyWatches := rest } hlen hreg2
          have hgoal : drainAux (Nat.succ n) s =
              ((drainAux n { s with mInitNotifyWatches := rest }).1,
               Invocation.mk p cb ::
                 (drainAux n { s with mInitNotifyWatches := rest }).2) := by
            simp [drainAux, hq, hstep]
          rw [hgoal]
          constructor
          · simp only [List.map_cons]
            rw [hrec.1]
          · exact hrec.2

/-- C2: every path registered via `setWatch` with `initNotify = true`
receives its synthetic initial notification exactly once even with
zero real change events; pending synthetic notifications are drained
in registration order; and a real change event does not consume a
pending synthetic notification. -/
theorem initNotify_synthetic_exactly_once
    (regs : List (String × WatchCallback))
    (hnodup : (regs.map Prod.fst).Nodup)
    (hpure : ∀ r ∈ regs, r.2.clears = []) :
    (drainInitNotify (registerAll emptyXenStore regs)).2.map
        Invocation.path = regs.map Prod.fst ∧
    (∀ p ∈ regs.map Prod.fst,
      ((drainInitNotify (registerAll emptyXenStore regs)).2.map
        Invocation.path).count p = 1) ∧
    (∀ s p cb, lookupWatch s.mWatches p = some cb → cb.clears = [] →
      (dispatchEvent s p).1.mInitNotifyWatches =
        s.mInitNotifyWatches) := by
  have hqueue : (registerAll emptyXenStore regs).mInitNotifyWatches
      = regs.map Prod.fst := by
    have h := registerAll_queue regs emptyXenStore
      (by intro r _ hmem; simp [emptyXenStore] at hmem) hnodup
    simpa [emptyXenStore] using h
  have hreg : ∀ p ∈ (registerAll emptyXenStore regs).mInitNotifyWatches,
      ∃ cb, lookupWatch (registerAll emptyXenStore regs).mWatches p =
        some cb ∧ cb.clears = [] := by
    intro p hp
    rw [hqueue] at hp
    obtain ⟨r, hr, hrp⟩ := List.mem_map.mp hp
    exact ⟨r.2, hrp ▸ registerAll_lookup_mem regs emptyXenStore r hr hnodup,
      hpure r hr⟩
  have hmain := drainAux_pure
    (registerAll emptyXenStore regs).mInitNotifyWatches.length
    (registerAll emptyXenStore regs) le_rfl hreg
  have h1 : (drainInitNotify (registerAll emptyXenStore regs)).2.map
      Invocation.path = regs.map Prod.fst := by
    rw [drainInitNotify, hmain.1, hqueue]
  refine ⟨h1, ?_, ?_⟩
  · intro p hp
    rw [h1]
    exact List.count_eq_one_of_mem hnodup hp
  · intro s p cb hcb hclears
    simp [dispatchEvent, hcb, runCallback_pure _ _ hclears]

theorem initNotify_synthetic_exactly_once_witness :
    ((c2Regs.map Prod.fst).Nodup ∧ ∀ r ∈ c2Regs, r.2.clears = []) ∧
    (drainInitNotify (registerAll emptyXenStore c2Regs)).2.map
      Invocation.path = c2Regs.map Prod.fst := by
  refine ⟨⟨by decide, by decide⟩, ?_⟩
  exact (initNotify_synthetic_exactly_once c2Regs (by decide)
    (by decide)).1

/-- C3: the dispatch engine never invokes a callback for a path with
no current registration: an event for an unregistered or just-cleared
path produces no invocation, every invocation it does produce (real or
synthetic) is backed by the registration current at that moment, and a
re-registered path is serviced again. -/
theorem no_invocation_without_registration :
    (∀ s p, lookupWatch s.mWatches p = none →
      (dispatchEvent s p).2 = none) ∧
    (∀ s p inv, (dispatchEvent s p).2 = some inv →
      inv.path = p ∧ lookupWatch s.mWatches p = some inv.callback) ∧
    (∀ s inv, (dispatchInitNotify s).2 = some inv →
      lookupWatch s.mWatches inv.path = some inv.callback) ∧
    (∀ s p, (dispatchEvent (clearWatch s p) p).2 = none) ∧
    (∀ s p cb b,
      (dispatchEvent (setWatch (clearWatch s p) p cb b) p).2 =
        some ⟨p, cb⟩) := by
  refine ⟨?_, ?_, ?_, ?_, ?_⟩
  · intro s p h
    simp [dispatchEvent, h]
  · intro s p inv h
    rcases hl : lookupWatch s.mWatches p with _ | cb
    · simp [dispatchEvent, hl] at h
    · simp only [dispatchEvent, hl] at h
      have h2 : Invocation.mk p cb = inv := by simpa using h
      subst h2
      exact ⟨rfl, by simp [hl]⟩
  · intro s inv h
    rcases hq : s.mInitNotifyWatches with _ | ⟨p, rest⟩
    · simp [dispatchInitNotify, hq] at h
    · rcases hl : lookupWatch s.mWatches p with _ | cb
      · simp [dispatchInitNotify, hq, hl] at h
      · simp only [dispatchInitNotify, hq, hl] at h
        have h2 : Invocation.mk p cb = inv := by simpa using h
        subst h2
        simpa using hl
  · intro s p
    simp [dispatchEvent, lookupWatch_clearWatch]
  · intro s p cb b
    simp [dispatchEvent, lookupWatch_setWatch]

theorem no_invocation_without_registration_witness :
    (dispatchEvent (clearWatch c3State "/a") "/a").2 = none :=
  no_invocation_without_registration.2.2.2.1 c3State "/a"

/-- C7: a callback that calls `clearWatch` on its own path from inside
its own invocation completes (the dispatch step is a total function
and records the in-flight invocation), leaves the path unregistered
with no pending synthetic notification, and no further invocation for
that path occurs afterwards. -/
theorem self_unregistration_safe (s : XenStoreState) (p : String)
    (cb : WatchCallback) (hreg : lookupWatch s.mWatches p = some cb)
    (hself : p ∈ cb.clears) :
    (dispatchEvent s p).2 = some ⟨p, cb⟩ ∧
    lookupWatch (dispatchEvent s p).1.mWatches p = none ∧
    p ∉ (dispatchEvent s p).1.mInitNotifyWatches ∧
    (dispatchEvent (dispatchEvent s p).1 p).2 = none := by
  have hd : dispatchEvent s p = (runCallback s cb, some ⟨p, cb⟩) := by
    simp [dispatchEvent, hreg]
  rw [hd]
  have h1 := runCallback_lookup_none s cb p hself
  refine ⟨rfl, h1, runCallback_not_mem_queue s cb p hself, ?_⟩
  simp [dispatchEvent, h1]

theorem self_unregistration_safe_witness :
    (lookupWatch c7State.mWatches "/w" = some c7Cb ∧
      "/w" ∈ c7Cb.clears) ∧
    (dispatchEvent c7State "/w").2 = some ⟨"/w", c7Cb⟩ ∧
    (dispatchEvent (dispatchEvent c7State "/w").1 "/w").2 = none := by
  have h := self_unregistration_safe c7State "/w" c7Cb (by decide)
    (List.mem_cons_self _ _)
  exact ⟨⟨by decide, List.mem_cons_self _ _⟩, h.1, h.2.2.2⟩

theorem eraseKey_sublist (w : List (String × WatchCallback)) (p : String) :
    (eraseKey w p).Sublist w := by
  induction w with
  | nil => simp [eraseKey]
  | cons e t ih =>
      by_cases he : e.1 = p
      · rw [eraseKey_cons_self e t p he]
        exact ih.cons e
      · rw [eraseKey_cons_ne e t p he]
        exact ih.cons₂ e

theorem nodup_keys_eraseKey (w : List (String × WatchCallback))
    (p : String) (h : (w.map Prod.fst).Nodup) :
    ((eraseKey w p).map Prod.fst).Nodup :=
  List.Nodup.sublist ((eraseKey_sublist w p).map Prod.fst) h

theorem not_mem_keys_eraseKey (w : List (String × WatchCallback))
    (p : String) : p ∉ (eraseKey w p).map Prod.fst := by
  induction w with
  | nil => simp [eraseKey]
  | cons e t ih =>
      by_cases he : e.1 = p
      · rw [eraseKey_cons_self e t p he]
        exact ih
      · rw [eraseKey_cons_ne e t p he]
        simp only [List.map_cons, List.mem_cons]
        rintro (h1 | h1)
        · exact he h1.symm
        · exact ih h1

theorem nodup_keys_setWatch (s : XenStoreState) (p : String)
    (cb : WatchCallback) (b : Bool)
    (h : (s.mWatches.map Prod.fst).Nodup) :
    ((setWatch s p cb b).mWatches.map Prod.fst).Nodup := by
  simp only [setWatch, List.map_append, List.map_cons, List.map_nil]
  rw [List.nodup_append]
  refine ⟨nodup_keys_eraseKey _ _ h, List.nodup_singleton p, ?_⟩
  intro x hx hx2
  have hxp : x = p := by simpa using hx2
  exact not_mem_keys_eraseKey s.mWatches p (hxp ▸ hx)

theorem nodup_keys_foldl_clearWatch (l : List String) (s : XenStoreState)
    (h : (s.mWatches.map Prod.fst).Nodup) :
    ((l.foldl clearWatch s).mWatches.map Prod.fst).Nodup := by
  induction l generalizing s with
  | nil => exact h
  | cons a t ih => exact ih _ (nodup_keys_eraseKey _ _ h)

theorem nodup_keys_applyXsOp (s : XenStoreState) (op : XsOp)
    (h : (s.mWatches.map Prod.fst).Nodup) :
    ((applyXsOp s op).mWatches.map Prod.fst).Nodup := by
  cases op with
  | set p cb b => exact nodup_keys_setWatch s p cb b h
  | clear p => exact nodup_keys_eraseKey _ _ h
  | event p =>
      rcases hl : lookupWatch s.mWatches p with _ | cb
      · simpa [applyXsOp, dispatchEvent, hl] using h
      · simp only [applyXsOp, dispatchEvent, hl]
        exact nodup_keys_foldl_clearWatch _ _ h
  | initStep =>
      rcases hq : s.mInitNotifyWatches with _ | ⟨p, rest⟩
      · simpa [applyXsOp, dispatchInitNotify, hq] using h
      · rcases hl : lookupWatch s.mWatches p with _ | cb
        · simpa [applyXsOp, dispatchInitNotify, hq, hl] using h
        · simp only [applyXsOp, dispatchInitNotify, hq, hl]
          exact nodup_keys_foldl_clearWatch _ _ h

theorem erasePath_append (l1 l2 : List String) (p : String) :
    erasePath (l1 ++ l2) p = erasePath l1 p ++ erasePath l2 p := by
  induction l1 with
  | nil => rfl
  | cons a t ih =>
      by_cases ha : a = p
      · rw [List.cons_append, erasePath_cons_self a _ p ha,
          erasePath_cons_self a t p ha, ih]
      · rw [List.cons_append, erasePath_cons_ne a _ p ha,
          erasePath_cons_ne a t p ha, ih, List.cons_append]

theorem erasePath_erasePath (l : List String) (p : String) :
    erasePath (erasePath l p) p = erasePath l p :=
  erasePath_of_not_mem _ _ (fun h => ((mem_erasePath _ _ _).mp h).2 rfl)

/-- C6: the watch table holds at most one registration per path in
every state reachable through the watch interface, and `setWatch`
replaces: registering twice on the same path leaves exactly the state
of the second registration alone (table entry and pending synthetic
notification), and a subsequent notification invokes only the second
callback. -/
theorem setWatch_last_registration_wins :
    (∀ ops, ((runXsOps emptyXenStore ops).mWatches.map Prod.fst).Nodup) ∧
    (∀ s p cb1 cb2 b1 b2,
      lookupWatch (setWatch (setWatch s p cb1 b1) p cb2 b2).mWatches p =
        some cb2 ∧
      (∀ q,
        lookupWatch (setWatch (setWatch s p cb1 b1) p cb2 b2).mWatches q =
          lookupWatch (setWatch s p cb2 b2).mWatches q) ∧
      (setWatch (setWatch s p cb1 b1) p cb2 b2).mInitNotifyWatches =
        (setWatch s p cb2 b2).mInitNotifyWatches ∧
      (dispatchEvent (setWatch (setWatch s p cb1 b1) p cb2 b2) p).2 =
        some ⟨p, cb2⟩) := by
  constructor
  · intro ops
    suffices hstep : ∀ t s, (s.mWatches.map Prod.fst).Nodup →
        ((runXsOps s t).mWatches.map Prod.fst).Nodup by
      exact hstep ops emptyXenStore (by simp [emptyXenStore])
    intro t
    induction t with
    | nil => intro s h; exact h
    | cons op rest ih =>
        intro s h
        exact ih _ (nodup_keys_applyXsOp s op h)
  · intro s p cb1 cb2 b1 b2
    have hq : (setWatch (setWatch s p cb1 b1) p cb2 b2).mInitNotifyWatches =
        (setWatch s p cb2 b2).mInitNotifyWatches := by
      simp only [setWatch, erasePath_append, erasePath_erasePath]
      cases b1 <;> cases b2 <;> simp [erasePath]
    refine ⟨?_, ?_, hq, ?_⟩
    · rw [lookupWatch_setWatch]
      simp
    · intro q
      rw [lookupWatch_setWatch, lookupWatch_setWatch, lookupWatch_setWatch]
      by_cases hqp : q = p <;> simp [hqp]
    · have hl : lookupWatch
          (setWatch (setWatch s p cb1 b1) p cb2 b2).mWatches p = some cb2 := by
        rw [lookupWatch_setWatch]
        simp
      simp [dispatchEvent, hl]

/-- C8: destroying a `XenStore` signals the dispatch thread to exit
and joins it before releasing the store handle, clears every
registered and pending-initial-notify watch, performs no callback
invocation itself, and leaves a state in which no dispatch step can
invoke any callback. -/
theorem xenstore_teardown_clean (s : XenStoreState) :
    ((xenStoreRelease s).2.all fun a => ! isInvokeCallback a) = true ∧
    (xenStoreRelease s).1.mWatches = [] ∧
    (xenStoreRelease s).1.mInitNotifyWatches = [] ∧
    (∀ p, (dispatchEvent (xenStoreRelease s).1 p).2 = none) ∧
    (dispatchInitNotify (xenStoreRelease s).1).2 = none ∧
    (xenStoreRelease s).2.indexOf TeardownAction.signalThreadExit <
      (xenStoreRelease s).2.indexOf TeardownAction.joinThread ∧
    (xenStoreRelease s).2.indexOf TeardownAction.joinThread <
      (xenStoreRelease s).2.indexOf TeardownAction.closeHandle := by
  refine ⟨rfl, rfl, rfl, ?_, rfl, ?_, ?_⟩
  · intro p
    simp [xenStoreRelease, clearWatches, emptyXenStore, dispatchEvent,
      lookupWatch]
  · simp only [xenStoreRelease]
    decide
  · simp only [xenStoreRelease]
    decide

theorem frontendStateChanged_ids (impl : HookImpl)
    (s : FrontendHandlerState) (v : XenbusState) :
    (frontendStateChanged impl s v).1.mDomId = s.mDomId ∧
    (frontendStateChanged impl s v).1.mDevId = s.mDevId := by
  by_cases hv : v = s.mFrontendState
  · simp [frontendStateChanged, hv]
  · rcases hf : hookFor v with _ | h
    · simp [frontendStateChanged, hv, hf]
    · rcases hi : impl h with e | u
      · simp [frontendStateChanged, hv, hf, hi, onError]
      · simp [frontendStateChanged, hv, hf, hi]

/-- C10: `getDomId` and `getDevId` return the constructor-supplied
domain and device ids for the entire lifetime of the handler: no
post-construction operation (watch-callback dispatch with any hook
implementation, `addRingBuffer`, `setBackendState`, or the error/
termination path) changes them. -/
theorem domid_devid_immutable (domId devId : Nat) (ops : List FhOp) :
    getDomId (runFhOps (mkFrontendHandler domId devId) ops) = domId ∧
    getDevId (runFhOps (mkFrontendHandler domId devId) ops) = devId ∧
    (∀ s op, getDomId (applyFhOp s op) = getDomId s ∧
      getDevId (applyFhOp s op) = getDevId s) := by
  have hop : ∀ s op, (applyFhOp s op).mDomId = s.mDomId ∧
      (applyFhOp s op).mDevId = s.mDevId := by
    intro s op
    cases op with
    | observe impl v => exact frontendStateChanged_ids impl s v
    | addRing rb => exact ⟨rfl, rfl⟩
    | publish st => exact ⟨rfl, rfl⟩
    | fail => exact ⟨rfl, rfl⟩
  have hrun : ∀ t s, (runFhOps s t).mDomId = s.mDomId ∧
      (runFhOps s t).mDevId = s.mDevId := by
    intro t
    induction t with
    | nil => intro s; exact ⟨rfl, rfl⟩
    | cons op rest ih =>
        intro s
        have h1 := hop s op
        have h2 := ih (applyFhOp s op)
        exact ⟨h2.1.trans h1.1, h2.2.trans h1.2⟩
  exact ⟨(hrun ops _).1, (hrun ops _).2, fun s op => hop s op⟩

theorem frontendStateChanged_mFrontendState (impl : HookImpl)
    (s : FrontendHandlerState) (v : XenbusState) :
    (frontendStateChanged impl s v).1.mFrontendState = v := by
  by_cases hv : v = s.mFrontendState
  · simp [frontendStateChanged, hv]
  · rcases hf : hookFor v with _ | h
    · simp [frontendStateChanged, hv, hf]
    · rcases hi : impl h with e | u <;>
        simp [frontendStateChanged, hv, hf, hi, onError]

/-- C1 (amended): a repeated report of the same state dispatches no
hook; a changed report records the new value and dispatches exactly
the hook the state table selects from the new state value alone, where
`Unknown` has no hook; and the spec scenario sequence drives exactly
the expected hooks with no duplicate when InitWait repeats. -/
theorem hook_dispatch_on_state_change (impl : HookImpl)
    (s : FrontendHandlerState) (v : XenbusState) :
    (v = s.mFrontendState → frontendStateChanged impl s v = (s, [])) ∧
    (v ≠ s.mFrontendState →
      (frontendStateChanged impl s v).1.mFrontendState = v ∧
      (frontendStateChanged impl s v).2 =
        (hookFor v).elim [] hookEvents) ∧
    ((observeSeq okHookImpl (mkFrontendHandler 1 0)
        [XenbusState.unknown, XenbusState.initialising,
         XenbusState.initWait, XenbusState.initWait,
         XenbusState.initialized, XenbusState.connected]).2 =
      [HookEvent.stateHook Hook.onStateInitializing,
       HookEvent.stateHook Hook.onStateInitWait,
       HookEvent.stateHook Hook.onStateInitialized, HookEvent.bindHook,
       HookEvent.stateHook Hook.onStateConnected]) := by
  refine ⟨?_, ?_, by rfl⟩
  · intro hv
    simp [frontendStateChanged, hv]
  · intro hv
    refine ⟨frontendStateChanged_mFrontendState impl s v, ?_⟩
    rcases hf : hookFor v with _ | h
    · simp [frontendStateChanged, hv, hf]
    · rcases hi : impl h with e | u <;>
        simp [frontendStateChanged, hv, hf, hi]

theorem hook_dispatch_on_state_change_witness :
    frontendStateChanged okHookImpl (mkFrontendHandler 1 0)
        XenbusState.unknown = (mkFrontendHandler 1 0, []) ∧
    (frontendStateChanged okHookImpl (mkFrontendHandler 1 0)
        XenbusState.initWait).2 =
      [HookEvent.stateHook Hook.onStateInitWait] := by
  constructor
  · exact (hook_dispatch_on_state_change okHookImpl
      (mkFrontendHandler 1 0) XenbusState.unknown).1 rfl
  · exact ((hook_dispatch_on_state_change okHookImpl
      (mkFrontendHandler 1 0) XenbusState.initWait).2.1 (by decide)).2

/-- C1 as literally stated is refuted: observing `Unknown` while the
recorded frontend state is `Connected` is a changed state value, yet
none of the eight per-state hooks is dispatched, because `Unknown` has
no entry in the state table. -/
theorem hook_dispatch_on_state_change_counterexample :
    XenbusState.unknown ≠ c1Handler.mFrontendState ∧
    (frontendStateChanged okHookImpl c1Handler XenbusState.unknown).2 =
      [] :=
  ⟨by decide, rfl⟩

theorem frontendStateChanged_bind_count (s : FrontendHandlerState)
    (v : XenbusState) :
    ((frontendStateChanged okHookImpl s v).2.count HookEvent.bindHook) =
      if v = XenbusState.initialized ∧ v ≠ s.mFrontendState then 1
      else 0 := by
  by_cases hv : v = s.mFrontendState
  · simp [frontendStateChanged, hv]
  · cases v <;>
      simp [frontendStateChanged, hv, hookFor, hookEvents, okHookImpl]

theorem observeSeq_bind_count (vs : List XenbusState)
    (s : FrontendHandlerState) :
    ((observeSeq okHookImpl s vs).2.count HookEvent.bindHook) =
      entriesInto XenbusState.initialized s.mFrontendState vs := by
  induction vs generalizing s with
  | nil => simp [observeSeq, entriesInto]
  | cons v t ih =>
      have hstate := frontendStateChanged_mFrontendState okHookImpl s v
      simp only [observeSeq, List.count_append]
      rw [frontendStateChanged_bind_count,
        ih ((frontendStateChanged okHookImpl s v).1), hstate]
      simp [entriesInto]

/-- C5 (amended): `onBind` is invoked exactly on those reports of
`Initialized` that differ from the previously recorded frontend state:
over any observed sequence the number of `onBind` invocations equals
the number of entries into `Initialized`, so it fires at the first
arrival, contiguous repeated reports of `Initialized` do not re-invoke
it, and no other state value invokes it; it runs again only when the
observed state leaves `Initialized` and later re-enters it. -/
theorem onBind_on_entering_initialized (s : FrontendHandlerState)
    (vs : List XenbusState) (v : XenbusState) :
    ((observeSeq okHookImpl s vs).2.count HookEvent.bindHook) =
      entriesInto XenbusState.initialized s.mFrontendState vs ∧
    (HookEvent.bindHook ∈ (frontendStateChanged okHookImpl s v).2 ↔
      (v = XenbusState.initialized ∧ v ≠ s.mFrontendState)) := by
  refine ⟨observeSeq_bind_count vs s, ?_⟩
  have hc := frontendStateChanged_bind_count s v
  constructor
  · intro hmem
    by_cases hcond : v = XenbusState.initialized ∧ v ≠ s.mFrontendState
    · exact hcond
    · rw [if_neg hcond] at hc
      have hpos := List.count_pos_iff.mpr hmem
      omega
  · intro hcond
    rw [if_pos hcond] at hc
    exact List.count_pos_iff.mp (by omega)

/-- C5 as literally stated is refuted: after leaving `Initialized` for
`Connected`, a later report of `Initialized` differs from the recorded
state again and `onBind` is invoked a second time. -/
theorem onBind_on_entering_initialized_counterexample :
    ((observeSeq okHookImpl (mkFrontendHandler 1 0)
        [XenbusState.initialized, XenbusState.connected,
         XenbusState.initialized]).2.count HookEvent.bindHook) = 2 := by
  rfl

theorem frontendStateChanged_mTerminated (impl : HookImpl)
    (s : FrontendHandlerState) (v : XenbusState)
    (h : s.mTerminated = true) :
    (frontendStateChanged impl s v).1.mTerminated = true := by
  by_cases hv : v = s.mFrontendState
  · simpa [frontendStateChanged, hv] using h
  · rcases hf : hookFor v with _ | hk
    · simpa [frontendStateChanged, hv, hf] using h
    · rcases hi : impl hk with e | u
      · simp [frontendStateChanged, hv, hf, hi, onError]
      · simpa [frontendStateChanged, hv, hf, hi] using h

theorem observeSeq_mTerminated (impl : HookImpl) (vs : List XenbusState)
    (s : FrontendHandlerState) (h : s.mTerminated = true) :
    (observeSeq impl s vs).1.mTerminated = true := by
  induction vs generalizing s with
  | nil => exact h
  | cons v t ih =>
      exact ih _ (frontendStateChanged_mTerminated impl s v h)

/-- C4: an exception thrown by a per-state hook is caught at the
`FrontendHandlerBase` boundary — the dispatch function returns
normally with the hook activity recorded, nothing re-throws into the
shared dispatch thread — the backend state transitions to `Closing`,
and `isTerminated` reports the connection terminated from then on,
whatever is observed later. -/
theorem hook_exception_terminates (impl : HookImpl)
    (s : FrontendHandlerState) (v : XenbusState) (h : Hook) (e : String)
    (hne : v ≠ s.mFrontendState) (hh : hookFor v = some h)
    (herr : impl h = Except.error e) :
    (frontendStateChanged impl s v).1.mBackendState =
      XenbusState.closing ∧
    isTerminated (frontendStateChanged impl s v).1 = true ∧
    (∀ impl2 vs, isTerminated
      (observeSeq impl2 (frontendStateChanged impl s v).1 vs).1 = true) ∧
    (frontendStateChanged impl s v).2 = hookEvents h := by
  have hres : frontendStateChanged impl s v =
      (onError { s with mFrontendState := v }, hookEvents h) := by
    simp [frontendStateChanged, hne, hh, herr]
  rw [hres]
  refine ⟨rfl, rfl, ?_, rfl⟩
  intro impl2 vs
  have hterm := observeSeq_mTerminated impl2 vs
    (onError { s with mFrontendState := v }) rfl
  simp [isTerminated, hterm]

theorem hook_exception_terminates_witness :
    (XenbusState.connected ≠ (mkFrontendHandler 3 1).mFrontendState ∧
     hookFor XenbusState.connected = some Hook.onStateConnected ∧
     throwingHookImpl Hook.onStateConnected =
       Except.error "hook failure") ∧
    isTerminated (frontendStateChanged throwingHookImpl
      (mkFrontendHandler 3 1) XenbusState.connected).1 = true := by
  refine ⟨⟨by decide, rfl, rfl⟩, ?_⟩
  exact (hook_exception_terminates throwingHookImpl
    (mkFrontendHandler 3 1) XenbusState.connected Hook.onStateConnected
    "hook failure" (by decide) rfl rfl).2.1

theorem mod_ne_of_between (k prodIdx consIdx c : Nat)
    (h1 : consIdx ≤ k) (h2 : k < prodIdx)
    (h3 : prodIdx - consIdx < c) :
    ¬ prodIdx % c = k % c := by
  intro hmod
  have hkp : k ≤ prodIdx := Nat.le_of_lt h2
  have hdvd : c ∣ prodIdx - k := (Nat.modEq_iff_dvd' hkp).mp hmod.symm
  have hpos : 0 < prodIdx - k := by omega
  have hle : c ≤ prodIdx - k := Nat.le_of_dvd hpos hdvd
  omega

theorem ringProduce_full (r : XenRingBuffer) (x : Nat)
    (h : r.prodIdx - r.consIdx = r.capacity) :
    ringProduce r x = Except.error RingError.ringFull := by
  simp [ringProduce, h]

theorem ringProduce_ok (r : XenRingBuffer) (x : Nat)
    (h : r.prodIdx - r.consIdx ≠ r.capacity) :
    ringProduce r x = Except.ok
      { r with slots := r.slots.set (r.prodIdx % r.capacity) x
               prodIdx := r.prodIdx + 1 } := by
  simp [ringProduce, h]

theorem ringProduce_ok_spec (r : XenRingBuffer) (x : Nat)
    (hwf : ringWF r) (h : r.prodIdx - r.consIdx ≠ r.capacity) :
    ∃ r1, ringProduce r x = Except.ok r1 ∧ ringWF r1 ∧
      r1.capacity = r.capacity ∧ r1.prodIdx = r.prodIdx + 1 ∧
      r1.consIdx = r.consIdx ∧
      r1.slots = r.slots.set (r.prodIdx % r.capacity) x := by
  obtain ⟨hw1, hw2, hw3⟩ := hwf
  refine ⟨_, ringProduce_ok r x h, ?_, rfl, rfl, rfl, rfl⟩
  refine ⟨?_, ?_, ?_⟩
  · show r.consIdx ≤ r.prodIdx + 1
    omega
  · show r.prodIdx + 1 - r.consIdx ≤ r.capacity
    omega
  · show (r.slots.set (r.prodIdx % r.capacity) x).length = r.capacity
    simp [hw3]

theorem ringProduceAll_ok (xs : List Nat) (r : XenRingBuffer)
    (hwf : ringWF r)
    (hroom : r.prodIdx - r.consIdx + xs.length ≤ r.capacity) :
    ∃ r2, ringProduceAll r xs = Except.ok r2 ∧ ringWF r2 ∧
      r2.capacity = r.capacity ∧ r2.consIdx = r.consIdx ∧
      r2.prodIdx = r.prodIdx + xs.length := by
  induction xs generalizing r with
  | nil => exact ⟨r, rfl, hwf, rfl, rfl, by simp⟩
  | cons x t ih =>
      obtain ⟨hw1, hw2, hw3⟩ := hwf
      have hfull : r.prodIdx - r.consIdx ≠ r.capacity := by
        simp only [List.length_cons] at hroom
        omega
      obtain ⟨r1, hok, hwf1, hcap1, hprod1, hcons1, hslots1⟩ :=
        ringProduce_ok_spec r x ⟨hw1, hw2, hw3⟩ hfull
      have hroom1 : r1.prodIdx - r1.consIdx + t.length ≤ r1.capacity := by
        rw [hprod1, hcons1, hcap1]
        simp only [List.length_cons] at hroom
        omega
      obtain ⟨r2, hall, hwf2, hcap2, hcons2, hprod2⟩ := ih r1 hwf1 hroom1
      refine ⟨r2, ?_, hwf2, hcap2.trans hcap1, hcons2.trans hcons1, ?_⟩
      · show ringProduceAll r (x :: t) = Except.ok r2
        simp only [ringProduceAll, hok]
        exact hall
      · rw [hprod2, hprod1]
        simp only [List.length_cons]
        omega

theorem ringConsume_ok (r : XenRingBuffer)
    (h : r.consIdx ≠ r.prodIdx) :
    ringConsume r =
      Except.ok (r.slots.getD (r.consIdx % r.capacity) 0,
        { r with consIdx := r.consIdx + 1 }) := by
  simp [ringConsume, h]

theorem ringConsume_wf (r : XenRingBuffer) (hwf : ringWF r)
    (h : r.consIdx ≠ r.prodIdx) :
    ringWF { r with consIdx := r.consIdx + 1 } := by
  obtain ⟨hw1, hw2, hw3⟩ := hwf
  refine ⟨?_, ?_, ?_⟩
  · show r.consIdx + 1 ≤ r.prodIdx
    omega
  · show r.prodIdx - (r.consIdx + 1) ≤ r.capacity
    omega
  · exact hw3

/-- C9 (amended): from any well-formed ring, producing records without
consumption succeeds exactly while the producer lead stays within the
capacity; a production attempt on a full ring (lead = capacity) is
reported to the caller as an explicit ring-full error; a successful
production never overwrites an unread slot; and the invariant
producer − consumer ≤ capacity is preserved by every successful
produce and consume. -/
theorem ring_backpressure (r : XenRingBuffer) (xs : List Nat) (y k : Nat)
    (hwf : ringWF r) :
    (r.prodIdx - r.consIdx + xs.length ≤ r.capacity →
      ∃ r2, ringProduceAll r xs = Except.ok r2 ∧ ringWF r2 ∧
        r2.capacity = r.capacity ∧ r2.consIdx = r.consIdx ∧
        r2.prodIdx = r.prodIdx + xs.length) ∧
    (r.prodIdx - r.consIdx = r.capacity →
      ringProduce r y = Except.error RingError.ringFull) ∧
    (r.prodIdx - r.consIdx < r.capacity → r.consIdx ≤ k →
      k < r.prodIdx →
      ∃ r1, ringProduce r y = Except.ok r1 ∧ ringWF r1 ∧
        r1.slots.getD (k % r.capacity) 0 =
          r.slots.getD (k % r.capacity) 0) ∧
    (r.consIdx ≠ r.prodIdx →
      ringConsume r =
        Except.ok (r.slots.getD (r.consIdx % r.capacity) 0,
          { r with consIdx := r.consIdx + 1 }) ∧
      ringWF { r with consIdx := r.consIdx + 1 }) := by
  refine ⟨?_, ?_, ?_, ?_⟩
  · intro hroom
    exact ringProduceAll_ok xs r hwf hroom
  · intro hfull
    exact ringProduce_full r y hfull
  · intro hlt hk1 hk2
    have hfull : r.prodIdx - r.consIdx ≠ r.capacity := by omega
    obtain ⟨r1, hok, hwf1, hcap1, hprod1, hcons1, hslots1⟩ :=
      ringProduce_ok_spec r y hwf hfull
    refine ⟨r1, hok, hwf1, ?_⟩
    rw [hslots1]
    have hne : ¬ r.prodIdx % r.capacity = k % r.capacity :=
      mod_ne_of_between k r.prodIdx r.consIdx r.capacity hk1 hk2 hlt
    simp [List.getD_eq_getElem?_getD, List.getElem?_set_ne hne]
  · intro hne
    exact ⟨ringConsume_ok r hne, ringConsume_wf r hwf hne⟩

theorem ring_backpressure_witness :
    (ringWF ⟨2, 2, 0, [7, 8]⟩ ∧
      (⟨2, 2, 0, [7, 8]⟩ : XenRingBuffer).prodIdx -
        (⟨2, 2, 0, [7, 8]⟩ : XenRingBuffer).consIdx =
          (⟨2, 2, 0, [7, 8]⟩ : XenRingBuffer).capacity) ∧
    ringProduce ⟨2, 2, 0, [7, 8]⟩ 9 = Except.error RingError.ringFull := by
  refine ⟨⟨by decide, by decide⟩, ?_⟩
  exact (ring_backpressure ⟨2, 2, 0, [7, 8]⟩ [] 9 0 (by decide)).2.1
    (by decide)

/-- C9 as literally stated is refuted: with capacity 2, after
producing N = 1 ≤ 2 records without any consumption, a further
production attempt succeeds instead of being reported as ring-full. -/
theorem ring_backpressure_counterexample :
    ringProduceAll c9Ring [7] = Except.ok ⟨2, 1, 0, [7, 0]⟩ ∧
    ringProduce ⟨2, 1, 0, [7, 0]⟩ 8 = Except.ok ⟨2, 2, 0, [7, 8]⟩ := by
  constructor <;> rfl

theorem onBind_on_entering_initialized_witness :
    ((observeSeq okHookImpl (mkFrontendHandler 1 0)
        [XenbusState.initialized, XenbusState.initialized]).2.count
      HookEvent.bindHook) =
      entriesInto XenbusState.initialized
        (mkFrontendHandler 1 0).mFrontendState
        [XenbusState.initialized, XenbusState.initialized] :=
  (onBind_on_entering_initialized (mkFrontendHandler 1 0)
    [XenbusState.initialized, XenbusState.initialized]
    XenbusState.connected).1

theorem setWatch_last_registration_wins_witness :
    lookupWatch (setWatch (setWatch emptyXenStore "/a" ⟨1, []⟩ false)
      "/a" ⟨2, []⟩ false).mWatches "/a" = some ⟨2, []⟩ :=
  (setWatch_last_registration_wins.2 emptyXenStore "/a" ⟨1, []⟩ ⟨2, []⟩
    false false).1

theorem xenstore_teardown_clean_witness :
    ((xenStoreRelease c8State).2.all fun a => ! isInvokeCallback a) =
      true ∧
    (xenStoreRelease c8State).1.mInitNotifyWatches = [] :=
  ⟨(xenstore_teardown_clean c8State).1,
   (xenstore_teardown_clean c8State).2.2.1⟩

theorem domid_devid_immutable_witness :
    getDomId (runFhOps (mkFrontendHandler 5 2)
      [FhOp.addRing 9, FhOp.publish XenbusState.connected, FhOp.fail]) =
      5 :=
  (domid_devid_immutable 5 2
    [FhOp.addRing 9, FhOp.publish XenbusState.connected, FhOp.fail]).1

end XenBackend
